import Mathlib

/-!
Shallow embedding of the content-screening engine of `review-nlp-service`
(`src/models/content_filter.py`).

Python strings are modelled as `List Char`.  The external collaborators are
parameters of the operations that call them:

* `seg` models `jieba.cut` (the word segmenter), fallibly: an exception raised
  by the segmenter is an `Except.error` carrying its description;
* `findall` models `re.findall pattern text`, again fallibly, so that a
  corrupted rule raising at match time is representable;
* `compiles` models the success / failure of `re.compile` on a pattern source.

`ContentFilter`'s mutable attributes (`sensitive_words`, `patterns`,
`word_cache`) form `FilterState`; methods take and return the state
explicitly.  Python's insertion-ordered `dict` is an association list.
-/

namespace ReviewNLP

/-- A Python string, as its list of characters. -/
abbrev Str := List Char

/-- The reason string `"输入无效"` returned on invalid input
(`content_filter.py` line 111). -/
def invalidMsg : Str := "输入无效".data

/-- The reason string `"内容过短"` for too-short text (line 137). -/
def tooShortMsg : Str := "内容过短".data

/-- The reason `f"包含敏感词: {word}"` for a banned token (line 120). -/
def reasonSensitive (w : Str) : Str := "包含敏感词: ".data ++ w

/-- The reason `f"包含{pattern_name}: {match_text}"` for a pattern match
(line 131). -/
def reasonPattern (nm m : Str) : Str := "包含".data ++ nm ++ ": ".data ++ m

/-- The reason `f"检查过程出错: {e}"` for an exception caught inside
`check_content` (line 146). -/
def errReason (e : Str) : Str := "检查过程出错: ".data ++ e

/-- Lookup in a Python `dict` represented as an association list. -/
def dictLookup {α : Type} (c : List (Str × α)) (k : Str) : Option α :=
  match c with
  | [] => none
  | (k', v) :: rest => if k' = k then some v else dictLookup rest k

/-- Assignment `d[k] = v` on a Python `dict`: an existing key keeps its
position and gets the new value, a new key is appended at the end. -/
def dictAssign {α : Type} (c : List (Str × α)) (k : Str) (v : α) :
    List (Str × α) :=
  if c.any (fun kv => kv.1 = k) then
    c.map (fun kv => if kv.1 = k then (kv.1, v) else kv)
  else c ++ [(k, v)]

/-- The mutable attributes of a `ContentFilter` instance:
`self.sensitive_words` (a Python set), `self.patterns` (an insertion-ordered
dict from rule name to regex source), `self.word_cache` (a dict from text to
its token list). -/
@[ext]
structure FilterState where
  sensitive_words : Finset Str
  patterns : List (Str × Str)
  word_cache : List (Str × List Str)

/-- `ContentFilter._preprocess_text` (lines 82–97): return the cached token
list for `text` if present, otherwise call the segmenter, store the result
under the exact text, and return it.  A segmenter exception propagates (to
be caught by `check_content`) and, having been raised before the cache
write, leaves the cache unchanged. -/
def preprocess_text (seg : Str → Except Str (List Str))
    (cache : List (Str × List Str)) (text : Str) :
    Except Str (List Str × List (Str × List Str)) :=
  match dictLookup cache text with
  | some words => Except.ok (words, cache)
  | none =>
      match seg text with
      | Except.error e => Except.error e
      | Except.ok words => Except.ok (words, cache ++ [(text, words)])

/-- The pattern loop of `check_content` (lines 125–133): for each rule in
registry order, `re.findall` of its pattern, and one reason per match in
left-to-right order.  A matcher exception propagates, discarding the
reasons accumulated so far (Python's `try` covers the whole loop). -/
def patternReasons (findall : Str → Str → Except Str (List Str))
    (ps : List (Str × Str)) (text : Str) : Except Str (List Str) :=
  match ps with
  | [] => Except.ok []
  | (nm, p) :: rest =>
      match findall p text with
      | Except.error e => Except.error e
      | Except.ok ms =>
          match patternReasons findall rest text with
          | Except.error e => Except.error e
          | Except.ok rs => Except.ok (ms.map (fun m => reasonPattern nm m) ++ rs)

/-- `ContentFilter.check_content` (lines 99–146).  The input is
`Option Str`: `none` stands for `None` or any non-string value (rejected by
`isinstance`), `some t` for the string `t`; `not text` is true only for the
empty string.  Returns the `(is_appropriate, reasons)` pair together with
the state after the call. -/
def check_content (seg : Str → Except Str (List Str))
    (findall : Str → Str → Except Str (List Str))
    (st : FilterState) (input : Option Str) :
    (Bool × List Str) × FilterState :=
  match input with
  | none => ((false, [invalidMsg]), st)
  | some t =>
      if t = [] then ((false, [invalidMsg]), st)
      else
        match preprocess_text seg st.word_cache t with
        | Except.error e => ((false, [errReason e]), st)
        | Except.ok (words, cache1) =>
            let st1 : FilterState := { st with word_cache := cache1 }
            let wordReasons := words.filterMap (fun w =>
              if w ∈ st.sensitive_words then some (reasonSensitive w) else none)
            match patternReasons findall st.patterns t with
            | Except.error e => ((false, [errReason e]), st1)
            | Except.ok patReasons =>
                let reasons := wordReasons ++ patReasons ++
                  (if t.length < 5 then [tooShortMsg] else [])
                ((reasons.length == 0, reasons), st1)

/-- `ContentFilter.check_batch` (lines 148–170): screen each text in order,
threading the filter state (the tokenization cache) through the calls. -/
def check_batch (seg : Str → Except Str (List Str))
    (findall : Str → Str → Except Str (List Str))
    (st : FilterState) (texts : List (Option Str)) :
    List (Bool × List Str) × FilterState :=
  match texts with
  | [] => ([], st)
  | t :: rest =>
      let r := check_content seg findall st t
      let rs := check_batch seg findall r.2 rest
      (r.1 :: rs.1, rs.2)

/-- Outcome of `add_sensitive_words` / `remove_sensitive_words`: the new
set, the count the method writes to the log, and the method's return value.
Both methods are annotated `-> None` and end without a `return`, so the
caller-visible return value is `none` (Python `None`), never a count. -/
structure WordOpResult where
  sensitive_words : Finset Str
  logged_count : Nat
  ret : Option Nat

/-- `ContentFilter.add_sensitive_words` (lines 172–182):
`self.sensitive_words.update(words)`, logging `new_count - original_count`. -/
def add_sensitive_words (sw : Finset Str) (words : List Str) : WordOpResult :=
  let original_count := sw.card
  let sw' := sw ∪ words.toFinset
  { sensitive_words := sw', logged_count := sw'.card - original_count,
    ret := none }

/-- `ContentFilter.remove_sensitive_words` (lines 184–194):
`self.sensitive_words.difference_update(words)`, logging
`original_count - new_count`. -/
def remove_sensitive_words (sw : Finset Str) (words : List Str) :
    WordOpResult :=
  let original_count := sw.card
  let sw' := sw \ words.toFinset
  { sensitive_words := sw', logged_count := original_count - sw'.card,
    ret := none }

/-- Outcome of `add_pattern`: the new registry and the method's return
value.  The method is annotated `-> None` and ends without a `return` on
both the success and the failure path, so the return value is `none`. -/
structure PatternOpResult where
  patterns : List (Str × Str)
  ret : Option Bool

/-- `ContentFilter.add_pattern` (lines 226–240): test-compile the pattern;
on success store it under `name` (`dict` assignment), on `re.error` log and
leave the registry untouched.  `compiles` models whether `re.compile`
succeeds on the source. -/
def add_pattern (compiles : Str → Bool) (ps : List (Str × Str))
    (name pat : Str) : PatternOpResult :=
  if compiles pat then { patterns := dictAssign ps name pat, ret := none }
  else { patterns := ps, ret := none }

/-- `ContentFilter.remove_pattern` (lines 242–258): delete the rule if
present, returning whether it existed. -/
def remove_pattern (ps : List (Str × Str)) (name : Str) :
    List (Str × Str) × Bool :=
  if ps.any (fun kv => kv.1 = name) then
    (ps.filter (fun kv => ¬ kv.1 = name), true)
  else (ps, false)

/-! ### The built-in pattern registry and the phone-number rule

`self.patterns` (lines 35–41) maps rule names to regex sources.  The regex
engine is the external `re` module; for the phone rule
`(?<!\d)1[3-9]\d{9}(?!\d)` we implement its `findall` scanning semantics
directly (`phoneFindall` below) so that boundary-awareness can be proved.
`re` is compiled without `re.ASCII`, so `\d` matches *any Unicode decimal
digit* (category `Nd`); its exact character set belongs to the external
`re` module, so it is a parameter `isDig : Char → Bool` of the scan, like
`findall` itself.  The theorems about the scan assume of `isDig` only what
certainly holds of `\d` (for instance `isDig '1' = true`); witnesses
instantiate it with the concrete `isDigitModel` below. -/

/-- A concrete model of `\d` (Unicode decimal digit): the ASCII digit
block and the fullwidth digit block `０`–`９`.  This agrees with Python's
`\d` on every character appearing in this file; the full `Nd` category is
external, which is why the definitions below take the digit test as a
parameter rather than fixing this one. -/
def isDigitModel (c : Char) : Bool :=
  ('0' ≤ c && c ≤ '9') || ('０' ≤ c && c ≤ '９')

/-- Source text of the phone-number regex (line 36). -/
def phonePatternSrc : Str := "(?<!\\d)1[3-9]\\d\x7b9\x7d(?!\\d)".data

/-- The five built-in `(name, regex source)` pairs, in dict insertion order
(lines 35–41). -/
def builtinPatterns : List (Str × Str) :=
  [("手机号".data, phonePatternSrc),
   ("身份证".data, "(?<!\\d)(\\d\x7b17\x7d[\\dXx]|\\d\x7b15\x7d)(?!\\d)".data),
   ("URL".data,
     "(https?://[^\\s<>\"\\\x27]+|www\\.[^\\s<>\"\\\x27]+\\.[^\\s<>\"\\\x27]+)".data),
   ("邮箱".data,
     "[a-zA-Z0-9._%+-]+@[a-zA-Z0-9.-]+\\.[a-zA-Z]\x7b2,\x7d".data),
   ("银行卡".data,
     "(?<!\\d)(62\\d\x7b14,17\x7d|4\\d\x7b15\x7d|5[1-5]\\d\x7b14\x7d|3[47]\\d\x7b13\x7d)(?!\\d)".data)]

/-- Does the phone regex (without its lookbehind) match at the start of
`s`?  The literal `1`, then one character in the ASCII class `[3-9]`, then
nine `\d` digits (per `isDig`), then the lookahead `(?!\d)`: end of input
or a non-digit. -/
def phoneHead (isDig : Char → Bool) (s : Str) : Bool :=
  decide (11 ≤ s.length) && (s.getD 0 ' ' == '1')
    && decide ('3' ≤ s.getD 1 ' ') && decide (s.getD 1 ' ' ≤ '9')
    && ((List.range 9).all fun i => isDig (s.getD (i + 2) ' '))
    && (s.length == 11 || !isDig (s.getD 11 ' '))

/-- The left-to-right, non-overlapping scan of `re.findall` for the phone
regex.  `prevDigit` carries the lookbehind `(?<!\d)`: whether the character
before the current position is a digit (`false` at the start of the text).
After a match the scan resumes right after it — the `skip` counter walks
over the remaining 10 matched characters (all digits, so the lookbehind
context becomes `true`). -/
def phoneScan (isDig : Char → Bool) : Nat → Bool → Str → List Str
  | _, _, [] => []
  | 0, prevDigit, c :: rest =>
      if !prevDigit && phoneHead isDig (c :: rest) then
        (c :: rest).take 11 :: phoneScan isDig 10 true rest
      else phoneScan isDig 0 (isDig c) rest
  | skip + 1, _, _ :: rest => phoneScan isDig skip true rest

/-- `re.findall` of the phone regex over a whole text, given the digit
test `isDig` modelling `\d`. -/
def phoneFindall (isDig : Char → Bool) (text : Str) : List Str :=
  phoneScan isDig 0 false text

/-- An 11-character string accepted by the phone regex body:
`1`, an ASCII digit `3`–`9`, then nine `\d` digits. -/
def validPhone (isDig : Char → Bool) (ph : Str) : Bool :=
  (ph.length == 11) && (ph.getD 0 ' ' == '1')
    && decide ('3' ≤ ph.getD 1 ' ') && decide (ph.getD 1 ' ' ≤ '9')
    && ((List.range 9).all fun i => isDig (ph.getD (i + 2) ' '))

/-! ### Concrete instances used to exercise the model

`seg0` models `jieba.cut` returning the whole text as a single token (its
actual behaviour on the texts used below); `findallModel` models
`re.findall`: exact semantics for the phone rule, no match for the other
rules (their actual behaviour on the texts used below). -/

/-- Default vocabulary `default_words` (lines 50–53), used when no word
file is supplied. -/
def default_words : Finset Str :=
  {"脏话".data, "骂人".data, "违禁品".data, "色情".data, "赌博".data,
   "诈骗".data}

/-- The state of a freshly constructed `ContentFilter` with no word file:
default vocabulary, the five built-in rules, empty cache. -/
def initialState : FilterState :=
  { sensitive_words := default_words, patterns := builtinPatterns,
    word_cache := [] }

/-- A concrete segmenter: the whole text as one token. -/
def seg0 : Str → Except Str (List Str) := fun t => Except.ok [t]

/-- A concrete `re.findall` model: `phoneFindall` (with the concrete digit
test) for the phone rule, no matches for any other pattern source. -/
def findallModel : Str → Str → Except Str (List Str) := fun p t =>
  if p = phonePatternSrc then Except.ok (phoneFindall isDigitModel t)
  else Except.ok []

/-- A filter state whose registry holds only the phone rule, with an empty
vocabulary and cache — isolates the phone rule's contribution to the
reason list. -/
def phoneOnlyState : FilterState :=
  { sensitive_words := ∅, patterns := [("手机号".data, phonePatternSrc)],
    word_cache := [] }

/-- Balanced-parenthesis check: a concrete model of the aspect of
`re.compile` that `add_pattern`'s test compile exercises in the spec's
example — `(unclosed` fails to compile. -/
def parenScan : Nat → Str → Bool
  | d, [] => d == 0
  | d, c :: rest =>
      if c = '(' then parenScan (d + 1) rest
      else if c = ')' then decide (0 < d) && parenScan (d - 1) rest
      else parenScan d rest

/-- A pattern source compiles iff its parentheses balance. -/
def parenOk (s : Str) : Bool := parenScan 0 s

/-! ### Helper lemmas -/

lemma length_beq_zero_eq_isEmpty {α : Type} (l : List α) :
    (l.length == 0) = l.isEmpty := by
  cases l <;> rfl

/-! ### Claims -/

/-- **C8.** For every segmenter, regex engine, state and input, the verdict
of `check_content` satisfies `is_appropriate = reasons.isEmpty`, on the
normal path as well as on the invalid-input and internal-error paths. -/
theorem verdict_invariant (seg : Str → Except Str (List Str))
    (findall : Str → Str → Except Str (List Str))
    (st : FilterState) (input : Option Str) :
    (check_content seg findall st input).1.1
      = (check_content seg findall st input).1.2.isEmpty := by
  unfold check_content
  cases input with
  | none => rfl
  | some t =>
      by_cases ht : t = []
      · simp [ht]
      · simp only [ht, if_false, reduceIte]
        cases hpre : preprocess_text seg st.word_cache t with
        | error e => rfl
        | ok pr =>
            obtain ⟨words, cache1⟩ := pr
            cases hpat : patternReasons findall st.patterns t with
            | error e => rfl
            | ok prs => exact length_beq_zero_eq_isEmpty _

/-- **C3, counterexample.** `add_sensitive_words` / `remove_sensitive_words`
do not return the count: adding the one genuinely new word `"x"` to an
empty vocabulary is logged as count 1, but the method's return value is
Python's `None`, not that count; likewise for removal. -/
theorem word_count_return_cex :
    (add_sensitive_words ∅ [['x']]).logged_count = 1
    ∧ (add_sensitive_words ∅ [['x']]).ret = none
    ∧ (add_sensitive_words ∅ [['x']]).ret ≠ some 1
    ∧ (remove_sensitive_words {['x']} [['x']]).logged_count = 1
    ∧ (remove_sensitive_words {['x']} [['x']]).ret ≠ some 1 := by
  refine ⟨by decide, rfl, by decide, by decide, by decide⟩

/-- **C3, amended.** `add_sensitive_words` computes and logs the count of
words actually added (duplicates are no-ops) and
`remove_sensitive_words` the count actually removed (absent entries are
no-ops), but both methods return `None` rather than the count. -/
theorem word_counts_reported (sw : Finset Str) (words : List Str) :
    (add_sensitive_words sw words).logged_count = (words.toFinset \ sw).card
    ∧ (∀ w, w ∈ (add_sensitive_words sw words).sensitive_words
        ↔ w ∈ sw ∨ w ∈ words)
    ∧ (remove_sensitive_words sw words).logged_count
        = (sw ∩ words.toFinset).card
    ∧ (∀ w, w ∈ (remove_sensitive_words sw words).sensitive_words
        ↔ w ∈ sw ∧ w ∉ words)
    ∧ (add_sensitive_words sw words).ret = none
    ∧ (remove_sensitive_words sw words).ret = none := by
  refine ⟨?_, ?_, ?_, ?_, rfl, rfl⟩
  · show (sw ∪ words.toFinset).card - sw.card = (words.toFinset \ sw).card
    have h := Finset.card_sdiff_add_card words.toFinset sw
    rw [Finset.union_comm words.toFinset sw] at h
    omega
  · intro w
    simp [add_sensitive_words]
  · show sw.card - (sw \ words.toFinset).card = (sw ∩ words.toFinset).card
    have h := Finset.card_sdiff_add_card_inter sw words.toFinset
    omega
  · intro w
    simp [remove_sensitive_words]

/-- **C5, counterexample.** When `"x"` is already in the vocabulary,
`add_sensitive_words(["x"])` followed by `remove_sensitive_words(["x"])`
does not restore membership: `"x"` was a member before the pair of calls
and is not a member afterwards. -/
theorem add_remove_membership_cex :
    ['x'] ∈ ({['x']} : Finset Str)
    ∧ ['x'] ∉ (remove_sensitive_words
        (add_sensitive_words {['x']} [['x']]).sensitive_words
        [['x']]).sensitive_words := by
  decide

/-- **C5, amended.** If `"X"` was not in the vocabulary beforehand,
`add_sensitive_words(["X"])` followed by `remove_sensitive_words(["X"])`
restores the vocabulary exactly; if `"X"` was already present the
sequence removes it. -/
theorem add_remove_restores_fresh (sw : Finset Str) (x : Str)
    (hx : x ∉ sw) :
    (remove_sensitive_words
        (add_sensitive_words sw [x]).sensitive_words [x]).sensitive_words
      = sw := by
  show (sw ∪ [x].toFinset) \ [x].toFinset = sw
  ext a
  simp only [Finset.mem_sdiff, Finset.mem_union, List.mem_toFinset,
    List.mem_singleton]
  constructor
  · rintro ⟨ha | ha, hne⟩
    · exact ha
    · exact absurd ha hne
  · intro ha
    refine ⟨Or.inl ha, ?_⟩
    rintro rfl
    exact hx ha

/-- Witness for `add_remove_restores_fresh` at `sw = ∅`, `x = "x"`. -/
theorem add_remove_restores_fresh_witness :
    ['x'] ∉ (∅ : Finset Str)
    ∧ (remove_sensitive_words
        (add_sensitive_words ∅ [['x']]).sensitive_words
        [['x']]).sensitive_words = ∅ :=
  ⟨by decide, add_remove_restores_fresh ∅ ['x'] (by decide)⟩

/-- **C4, counterexample.** On the malformed pattern `"(unclosed"`,
`add_pattern` leaves the registry unchanged (the true half of the claim),
but its caller-visible return value is `None` — identical to the return
value of a successful `add_pattern` — so no failure indication is returned
to the caller (the failure is only logged). -/
theorem add_pattern_return_cex :
    (add_pattern parenOk builtinPatterns ("bad".data)
        ("(unclosed".data)).patterns = builtinPatterns
    ∧ (add_pattern parenOk builtinPatterns ("bad".data)
        ("(unclosed".data)).ret = none
    ∧ (add_pattern parenOk builtinPatterns ("ok".data)
        ("abc".data)).ret = none := by
  refine ⟨?_, rfl, rfl⟩
  have h : parenOk ("(unclosed".data) = false := by decide
  simp [add_pattern, h]

/-- **C4, amended.** For every compile oracle, registry state and name, a
pattern source that fails to compile leaves the registry completely
unchanged (same size, same rules, same order) and no broken rule is
inserted; the failure is only logged — the method returns `None`, not a
failure indication. -/
theorem add_pattern_rejects_malformed (compiles : Str → Bool)
    (ps : List (Str × Str)) (name pat : Str)
    (hc : compiles pat = false) :
    (add_pattern compiles ps name pat).patterns = ps
    ∧ (add_pattern compiles ps name pat).ret = none := by
  simp [add_pattern, hc]

/-- Witness for `add_pattern_rejects_malformed`: `"(unclosed"` does not
compile and the built-in registry is untouched. -/
theorem add_pattern_rejects_malformed_witness :
    parenOk ("(unclosed".data) = false
    ∧ (add_pattern parenOk builtinPatterns ("bad".data)
        ("(unclosed".data)).patterns = builtinPatterns
    ∧ (add_pattern parenOk builtinPatterns ("bad".data)
        ("(unclosed".data)).ret = none :=
  ⟨by decide,
   (add_pattern_rejects_malformed parenOk builtinPatterns ("bad".data)
      ("(unclosed".data) (by decide)).1,
   (add_pattern_rejects_malformed parenOk builtinPatterns ("bad".data)
      ("(unclosed".data) (by decide)).2⟩

lemma dictLookup_map_assign (ps : List (Str × Str)) (name pat : Str)
    (hm : name ∈ ps.map Prod.fst) :
    dictLookup
        (ps.map (fun kv => if kv.1 = name then (kv.1, pat) else kv)) name
      = some pat := by
  induction ps with
  | nil => simp at hm
  | cons kv rest ih =>
      rw [List.map_cons] at hm ⊢
      by_cases h : kv.1 = name
      · rw [if_pos h]
        simp only [dictLookup]
        rw [if_pos h]
      · rw [if_neg h]
        simp only [dictLookup]
        rw [if_neg h]
        rcases List.mem_cons.1 hm with h' | h'
        · exact absurd h'.symm h
        · exact ih h'

/-- **C10.** For a name already present in the registry and a pattern
source that compiles, `add_pattern` replaces the rule's pattern in place:
the key sequence (hence the evaluation/report order and the registry size)
is unchanged, the rule keeps its position, and looking the name up yields
the new pattern. -/
theorem add_pattern_replaces_in_place (compiles : Str → Bool)
    (ps : List (Str × Str)) (name pat : Str)
    (hc : compiles pat = true) (hm : name ∈ ps.map Prod.fst) :
    (add_pattern compiles ps name pat).patterns.map Prod.fst
        = ps.map Prod.fst
    ∧ (add_pattern compiles ps name pat).patterns.length = ps.length
    ∧ dictLookup (add_pattern compiles ps name pat).patterns name
        = some pat := by
  have hany : ps.any (fun kv => kv.1 = name) = true := by
    rcases List.mem_map.1 hm with ⟨kv, hkv, hfst⟩
    exact List.any_eq_true.2 ⟨kv, hkv, by simp [hfst]⟩
  have hpat : (add_pattern compiles ps name pat).patterns
      = ps.map (fun kv => if kv.1 = name then (kv.1, pat) else kv) := by
    simp [add_pattern, hc, dictAssign, hany]
  refine ⟨?_, ?_, ?_⟩
  · rw [hpat, List.map_map]
    apply List.map_congr_left
    intro kv _
    by_cases h : kv.1 = name <;> simp [h]
  · rw [hpat, List.length_map]
  · rw [hpat]
    exact dictLookup_map_assign ps name pat hm

/-- Witness for `add_pattern_replaces_in_place`: updating the first of two
rules keeps both keys in their original order. -/
theorem add_pattern_replaces_in_place_witness :
    parenOk ['z'] = true
    ∧ ['a'] ∈ ([( ['a'], ['x']), (['b'], ['y'])].map Prod.fst)
    ∧ (add_pattern parenOk [(['a'], ['x']), (['b'], ['y'])]
        ['a'] ['z']).patterns.map Prod.fst
        = [(['a'], ['x']), (['b'], ['y'])].map Prod.fst
    ∧ (add_pattern parenOk [(['a'], ['x']), (['b'], ['y'])]
        ['a'] ['z']).patterns.length
        = [(['a'], ['x']), (['b'], ['y'])].length
    ∧ dictLookup (add_pattern parenOk [(['a'], ['x']), (['b'], ['y'])]
        ['a'] ['z']).patterns ['a'] = some ['z'] :=
  ⟨by decide, by decide,
   (add_pattern_replaces_in_place parenOk [(['a'], ['x']), (['b'], ['y'])]
      ['a'] ['z'] (by decide) (by decide)).1,
   (add_pattern_replaces_in_place parenOk [(['a'], ['x']), (['b'], ['y'])]
      ['a'] ['z'] (by decide) (by decide)).2.1,
   (add_pattern_replaces_in_place parenOk [(['a'], ['x']), (['b'], ['y'])]
      ['a'] ['z'] (by decide) (by decide)).2.2⟩

lemma cacheLookup_append_self (c : List (Str × List Str)) (t : Str)
    (ws : List Str) (h : dictLookup c t = none) :
    dictLookup (c ++ [(t, ws)]) t = some ws := by
  induction c with
  | nil => simp [dictLookup]
  | cons kv rest ih =>
      obtain ⟨k', v⟩ := kv
      rw [dictLookup] at h
      by_cases hk : k' = t
      · rw [if_pos hk] at h
        exact absurd h (by simp)
      · rw [if_neg hk] at h
        rw [List.cons_append]
        show dictLookup _ t = some ws
        rw [dictLookup, if_neg hk]
        exact ih h

/-- **C1, counterexample.** The whitespace-only text `" "` is *not*
rejected as invalid input: on the freshly initialised filter it is
tokenized (the cache gains an entry) and screened, yielding the verdict
`(false, ["内容过短"])` — not `(false, ["输入无效"])` as the claim
requires. -/
theorem whitespace_not_rejected_cex :
    (check_content seg0 findallModel initialState (some [' '])).1
      = (false, [tooShortMsg])
    ∧ [tooShortMsg] ≠ [invalidMsg]
    ∧ (check_content seg0 findallModel initialState (some [' '])).2.word_cache
      = [([' '], [[' ']])]
    ∧ ([([' '], [[' ']])] : List (Str × List Str))
      ≠ initialState.word_cache := by
  refine ⟨by decide, by decide, by decide, by decide⟩

/-- **C1, amended.** `check_content` rejects inputs that are empty or not
textual immediately with `(false, ["输入无效"])`, touching no state (so no
tokenization or matching is attempted); a whitespace-only but nonempty
input, however, is not rejected by the validation — it proceeds to
tokenization (on a cache miss the cache gains the entry for it). -/
theorem input_validation (seg : Str → Except Str (List Str))
    (findall : Str → Str → Except Str (List Str)) (st : FilterState) :
    check_content seg findall st none = ((false, [invalidMsg]), st)
    ∧ check_content seg findall st (some []) = ((false, [invalidMsg]), st)
    ∧ (∀ t toks, t ≠ [] → dictLookup st.word_cache t = none →
        seg t = Except.ok toks →
        (check_content seg findall st (some t)).2.word_cache
          = st.word_cache ++ [(t, toks)]) := by
  refine ⟨rfl, rfl, ?_⟩
  intro t toks ht hmiss hseg
  simp only [check_content]
  rw [if_neg ht]
  unfold preprocess_text
  rw [hmiss, hseg]
  cases hpat : patternReasons findall st.patterns t <;> rfl

/-- Witness for `input_validation` on the initial filter state: `None` is
rejected untouched, and the nonempty whitespace text `" "` is tokenized
into the cache. -/
theorem input_validation_witness :
    check_content seg0 findallModel initialState none
      = ((false, [invalidMsg]), initialState)
    ∧ (check_content seg0 findallModel initialState (some [' '])).2.word_cache
      = initialState.word_cache ++ [([' '], [[' ']])] :=
  ⟨(input_validation seg0 findallModel initialState).1,
   (input_validation seg0 findallModel initialState).2.2 [' '] [[' ']]
     (by decide) rfl rfl⟩

/-- Spec §4.4, Sensitive-Word Matcher: one reason per token, in token
order, for every token in the vocabulary. -/
def scanWords (sw : Finset Str) : List Str → List Str
  | [] => []
  | w :: ws => (if w ∈ sw then [reasonSensitive w] else []) ++ scanWords sw ws

/-- Spec §4.6, Length Validator: the `"内容过短"` reason when the character
length is below 5. -/
def scanLength (t : Str) : List Str :=
  if t.length < 5 then [tooShortMsg] else []

lemma filterMap_eq_scanWords (sw : Finset Str) (ws : List Str) :
    ws.filterMap (fun w => if w ∈ sw then some (reasonSensitive w) else none)
      = scanWords sw ws := by
  induction ws with
  | nil => rfl
  | cons w ws ih =>
      by_cases h : w ∈ sw
      · simp [scanWords, h, List.filterMap_cons, ih]
      · simp [scanWords, h, List.filterMap_cons, ih]

/-- **C7.** On every valid input whose segmentation and pattern matching
succeed, the reason list of `check_content` is exactly the sensitive-word
reasons (in token order), then the pattern reasons (in registry order,
already ordered left-to-right per rule inside `patternReasons`), then the
length reason; and whenever the too-short reason is triggered it is the
last element of the list. -/
theorem reasons_order (seg : Str → Except Str (List Str))
    (findall : Str → Str → Except Str (List Str)) (st : FilterState)
    (t : Str) (words : List Str) (cache1 : List (Str × List Str))
    (prs : List Str) (ht : t ≠ [])
    (hpre : preprocess_text seg st.word_cache t = Except.ok (words, cache1))
    (hpat : patternReasons findall st.patterns t = Except.ok prs) :
    (check_content seg findall st (some t)).1.2
      = scanWords st.sensitive_words words ++ prs ++ scanLength t
    ∧ (t.length < 5 →
        (check_content seg findall st (some t)).1.2.getLast?
          = some tooShortMsg) := by
  have hbody : (check_content seg findall st (some t)).1.2
      = scanWords st.sensitive_words words ++ prs ++ scanLength t := by
    simp only [check_content]
    rw [if_neg ht, hpre, hpat]
    simp [filterMap_eq_scanWords, scanLength]
  refine ⟨hbody, fun hshort => ?_⟩
  rw [hbody, List.append_assoc]
  rw [List.getLast?_append_of_ne_nil]
  · rw [List.getLast?_append_of_ne_nil]
    · simp [scanLength, hshort]
    · simp [scanLength, hshort]
  · simp [scanLength, hshort]

/-- Witness for `reasons_order`: on the one-character text `"短"` with the
phone-only registry, the reason list is exactly `["内容过短"]`, with the
too-short reason last. -/
theorem reasons_order_witness :
    (check_content seg0 findallModel phoneOnlyState (some ("短".data))).1.2
      = scanWords phoneOnlyState.sensitive_words ["短".data] ++ []
          ++ scanLength ("短".data)
    ∧ (check_content seg0 findallModel phoneOnlyState
        (some ("短".data))).1.2.getLast? = some tooShortMsg :=
  ⟨(reasons_order seg0 findallModel phoneOnlyState ("短".data) ["短".data]
      [("短".data, ["短".data])] [] (by decide) rfl rfl).1,
   (reasons_order seg0 findallModel phoneOnlyState ("短".data) ["短".data]
      [("短".data, ["短".data])] [] (by decide) rfl rfl).2
     (by decide)⟩

/-- The `(is_appropriate, reasons)` pair `check_content` produces for a
valid text once its token list `ws` is fixed — used to state that the
verdict does not depend on how the tokens were obtained (cache hit or
fresh segmentation). -/
def verdictOf (findall : Str → Str → Except Str (List Str))
    (sw : Finset Str) (ps : List (Str × Str)) (ws : List Str) (t : Str) :
    Bool × List Str :=
  match patternReasons findall ps t with
  | Except.error e => (false, [errReason e])
  | Except.ok prs =>
      let wr := ws.filterMap (fun w =>
        if w ∈ sw then some (reasonSensitive w) else none)
      let reasons := wr ++ prs ++ (if t.length < 5 then [tooShortMsg] else [])
      ((reasons.length == 0), reasons)

lemma check_content_hit (seg : Str → Except Str (List Str))
    (findall : Str → Str → Except Str (List Str)) (st : FilterState)
    (t : Str) (ws : List Str) (ht : t ≠ [])
    (hl : dictLookup st.word_cache t = some ws) :
    check_content seg findall st (some t)
      = (verdictOf findall st.sensitive_words st.patterns ws t, st) := by
  have hpre : preprocess_text seg st.word_cache t
      = Except.ok (ws, st.word_cache) := by
    unfold preprocess_text
    rw [hl]
  simp only [check_content, if_neg ht, hpre, verdictOf]
  cases hp : patternReasons findall st.patterns t <;> rfl

lemma check_content_miss_err (seg : Str → Except Str (List Str))
    (findall : Str → Str → Except Str (List Str)) (st : FilterState)
    (t : Str) (e : Str) (ht : t ≠ [])
    (hl : dictLookup st.word_cache t = none)
    (hs : seg t = Except.error e) :
    check_content seg findall st (some t) = ((false, [errReason e]), st) := by
  have hpre : preprocess_text seg st.word_cache t = Except.error e := by
    unfold preprocess_text
    rw [hl, hs]
  simp only [check_content, if_neg ht, hpre]

lemma check_content_miss_ok (seg : Str → Except Str (List Str))
    (findall : Str → Str → Except Str (List Str)) (st : FilterState)
    (t : Str) (ws : List Str) (ht : t ≠ [])
    (hl : dictLookup st.word_cache t = none)
    (hs : seg t = Except.ok ws) :
    check_content seg findall st (some t)
      = (verdictOf findall st.sensitive_words st.patterns ws t,
         { st with word_cache := st.word_cache ++ [(t, ws)] }) := by
  have hpre : preprocess_text seg st.word_cache t
      = Except.ok (ws, st.word_cache ++ [(t, ws)]) := by
    unfold preprocess_text
    rw [hl, hs]
  simp only [check_content, if_neg ht, hpre, verdictOf]
  cases hp : patternReasons findall st.patterns t <;> rfl

/-- **C9.** Screening the same text twice: the second `check_content` call
returns the identical verdict, and leaves the whole state — in particular
the tokenization cache — exactly as the first call left it (the second
call is a cache hit, so no new tokenization happens). -/
theorem screen_twice_cached (seg : Str → Except Str (List Str))
    (findall : Str → Str → Except Str (List Str))
    (st : FilterState) (t : Str) :
    (check_content seg findall
        (check_content seg findall st (some t)).2 (some t)).1
      = (check_content seg findall st (some t)).1
    ∧ (check_content seg findall
        (check_content seg findall st (some t)).2 (some t)).2
      = (check_content seg findall st (some t)).2 := by
  by_cases ht : t = []
  · subst ht
    exact ⟨rfl, rfl⟩
  · cases hl : dictLookup st.word_cache t with
    | some ws =>
        have h1 := check_content_hit seg findall st t ws ht hl
        rw [h1]
        rw [check_content_hit seg findall st t ws ht hl]
        exact ⟨rfl, rfl⟩
    | none =>
        cases hs : seg t with
        | error e =>
            have h1 := check_content_miss_err seg findall st t e ht hl hs
            rw [h1]
            rw [check_content_miss_err seg findall st t e ht hl hs]
            exact ⟨rfl, rfl⟩
        | ok ws =>
            have h1 := check_content_miss_ok seg findall st t ws ht hl hs
            rw [h1]
            have hl2 : dictLookup
                ({ st with word_cache := st.word_cache ++ [(t, ws)] }
                  : FilterState).word_cache t = some ws :=
              cacheLookup_append_self st.word_cache t ws hl
            rw [check_content_hit seg findall _ t ws ht hl2]
            exact ⟨rfl, rfl⟩

/-- The tokenization cache is coherent with the segmenter: every cached
entry holds exactly what the segmenter returns for its key (the only way
`_preprocess_text` ever fills the cache). -/
def coherent (seg : Str → Except Str (List Str))
    (c : List (Str × List Str)) : Prop :=
  ∀ k v, dictLookup c k = some v → seg k = Except.ok v

lemma dictLookup_append_singleton {α : Type} (c : List (Str × α))
    (t k : Str) (w v : α) (h : dictLookup (c ++ [(t, w)]) k = some v) :
    dictLookup c k = some v ∨ (t = k ∧ w = v) := by
  induction c with
  | nil =>
      rw [List.nil_append] at h
      simp only [dictLookup] at h
      by_cases hk : t = k
      · rw [if_pos hk] at h
        right
        exact ⟨hk, by injection h⟩
      · rw [if_neg hk] at h
        exact absurd h (by simp)
  | cons kv rest ih =>
      obtain ⟨k', v'⟩ := kv
      rw [List.cons_append] at h
      simp only [dictLookup] at h ⊢
      by_cases hk : k' = k
      · rw [if_pos hk] at h ⊢
        exact Or.inl h
      · rw [if_neg hk] at h ⊢
        exact ih h

lemma coherent_append (seg : Str → Except Str (List Str))
    (c : List (Str × List Str)) (t : Str) (ws : List Str)
    (hc : coherent seg c) (hs : seg t = Except.ok ws) :
    coherent seg (c ++ [(t, ws)]) := by
  intro k v h
  rcases dictLookup_append_singleton c t k ws v h with h' | ⟨h1, h2⟩
  · exact hc k v h'
  · rw [← h1, ← h2]
    exact hs

lemma check_content_preserves (seg : Str → Except Str (List Str))
    (findall : Str → Str → Except Str (List Str))
    (st : FilterState) (inp : Option Str) :
    (check_content seg findall st inp).2.sensitive_words
        = st.sensitive_words
    ∧ (check_content seg findall st inp).2.patterns = st.patterns := by
  cases inp with
  | none => exact ⟨rfl, rfl⟩
  | some t =>
      by_cases ht : t = []
      · subst ht
        exact ⟨rfl, rfl⟩
      · cases hl : dictLookup st.word_cache t with
        | some ws =>
            rw [check_content_hit seg findall st t ws ht hl]
            exact ⟨rfl, rfl⟩
        | none =>
            cases hs : seg t with
            | error e =>
                rw [check_content_miss_err seg findall st t e ht hl hs]
                exact ⟨rfl, rfl⟩
            | ok ws =>
                rw [check_content_miss_ok seg findall st t ws ht hl hs]
                exact ⟨rfl, rfl⟩

lemma check_content_coherent (seg : Str → Except Str (List Str))
    (findall : Str → Str → Except Str (List Str))
    (st : FilterState) (inp : Option Str)
    (hc : coherent seg st.word_cache) :
    coherent seg (check_content seg findall st inp).2.word_cache := by
  cases inp with
  | none => exact hc
  | some t =>
      by_cases ht : t = []
      · subst ht
        exact hc
      · cases hl : dictLookup st.word_cache t with
        | some ws =>
            rw [check_content_hit seg findall st t ws ht hl]
            exact hc
        | none =>
            cases hs : seg t with
            | error e =>
                rw [check_content_miss_err seg findall st t e ht hl hs]
                exact hc
            | ok ws =>
                rw [check_content_miss_ok seg findall st t ws ht hl hs]
                exact coherent_append seg st.word_cache t ws hc hs

lemma check_content_verdict_pure (seg : Str → Except Str (List Str))
    (findall : Str → Str → Except Str (List Str))
    (st : FilterState) (inp : Option Str)
    (hc : coherent seg st.word_cache) :
    (check_content seg findall st inp).1
      = (check_content seg findall
          { st with word_cache := [] } inp).1 := by
  cases inp with
  | none => rfl
  | some t =>
      by_cases ht : t = []
      · subst ht
        rfl
      · have hl0 : dictLookup
            ({ st with word_cache := [] } : FilterState).word_cache t
            = none := rfl
        cases hl : dictLookup st.word_cache t with
        | some ws =>
            have hs : seg t = Except.ok ws := hc t ws hl
            rw [check_content_hit seg findall st t ws ht hl,
              check_content_miss_ok seg findall _ t ws ht hl0 hs]
        | none =>
            cases hs : seg t with
            | error e =>
                rw [check_content_miss_err seg findall st t e ht hl hs,
                  check_content_miss_err seg findall _ t e ht hl0 hs]
            | ok ws =>
                rw [check_content_miss_ok seg findall st t ws ht hl hs,
                  check_content_miss_ok seg findall _ t ws ht hl0 hs]

lemma check_batch_map (seg : Str → Except Str (List Str))
    (findall : Str → Str → Except Str (List Str)) :
    ∀ (texts : List (Option Str)) (st : FilterState),
    coherent seg st.word_cache →
    (check_batch seg findall st texts).1
      = texts.map (fun t =>
          (check_content seg findall { st with word_cache := [] } t).1) := by
  intro texts
  induction texts with
  | nil =>
      intro st _
      rfl
  | cons t rest ih =>
      intro st hc
      simp only [check_batch, List.map_cons]
      have hstate : ({ (check_content seg findall st t).2 with
          word_cache := [] } : FilterState)
          = { st with word_cache := [] } := by
        have hp := check_content_preserves seg findall st t
        ext1
        · exact hp.1
        · exact hp.2
        · rfl
      have htail := ih (check_content seg findall st t).2
        (check_content_coherent seg findall st t hc)
      rw [hstate] at htail
      rw [htail, check_content_verdict_pure seg findall st t hc]

/-- **C2.** `check_batch` returns one verdict per input, in input order:
the result list has the same length as the input, the empty input yields
the empty list, and the i-th entry is exactly the verdict of screening the
i-th text over the shared registries (the per-item map form shows that an
item whose screening fails — e.g. a segmenter or matcher exception, which
`check_content` converts into that item's verdict — cannot abort or affect
the screening of any other item). -/
theorem check_batch_isolated (seg : Str → Except Str (List Str))
    (findall : Str → Str → Except Str (List Str))
    (st : FilterState) (texts : List (Option Str))
    (hc : coherent seg st.word_cache) :
    (check_batch seg findall st texts).1.length = texts.length
    ∧ (texts = [] → (check_batch seg findall st texts).1 = [])
    ∧ (check_batch seg findall st texts).1
      = texts.map (fun t =>
          (check_content seg findall { st with word_cache := [] } t).1) := by
  have hmap := check_batch_map seg findall texts st hc
  refine ⟨?_, ?_, hmap⟩
  · rw [hmap, List.length_map]
  · intro h
    subst h
    rfl

/-- Witness for `check_batch_isolated` on the initial filter: a batch of a
sensitive text and an invalid (`None`) item — both verdicts appear, in
order. -/
theorem check_batch_isolated_witness :
    (check_batch seg0 findallModel initialState
        [some ("诈骗".data), none]).1.length
      = ([some ("诈骗".data), none] : List (Option Str)).length
    ∧ (check_batch seg0 findallModel initialState
        [some ("诈骗".data), none]).1
      = ([some ("诈骗".data), none] : List (Option Str)).map (fun t =>
          (check_content seg0 findallModel
            { initialState with word_cache := [] } t).1) :=
  ⟨(check_batch_isolated seg0 findallModel initialState
      [some ("诈骗".data), none] (fun _ _ h => Option.noConfusion h)).1,
   (check_batch_isolated seg0 findallModel initialState
      [some ("诈骗".data), none] (fun _ _ h => Option.noConfusion h)).2.2⟩

lemma phoneScan_skip (isDig : Char → Bool) :
    ∀ (n : Nat) (s : Str) (prev : Bool),
    phoneScan isDig (n + 1) prev s
      = phoneScan isDig 0 true (s.drop (n + 1)) := by
  intro n
  induction n with
  | zero =>
      intro s prev
      cases s with
      | nil => rfl
      | cons c rest => rfl
  | succ n ih =>
      intro s prev
      cases s with
      | nil => rfl
      | cons c rest =>
          show phoneScan isDig (n + 1) true rest
            = phoneScan isDig 0 true ((c :: rest).drop (n + 1 + 1))
          rw [List.drop_succ_cons]
          exact ih rest true

lemma phoneHead_not_one (isDig : Char → Bool) (c : Char) (l : Str)
    (h1 : isDig '1' = true) (hc : isDig c = false) :
    phoneHead isDig (c :: l) = false := by
  have hne : (c == '1') = false := by
    apply beq_eq_false_iff_ne.mpr
    intro h
    subst h
    rw [h1] at hc
    exact Bool.noConfusion hc
  simp [phoneHead, hne]

lemma phoneScan_digitFree_prefix (isDig : Char → Bool)
    (h1 : isDig '1' = true) :
    ∀ (pre : Str), (∀ c ∈ pre, isDig c = false) →
    ∀ (b : Bool) (s : Str),
    phoneScan isDig 0 b (pre ++ s)
      = phoneScan isDig 0 (b && pre.isEmpty) s := by
  intro pre
  induction pre with
  | nil =>
      intro _ b s
      simp
  | cons c rest ih =>
      intro h b s
      have hc : isDig c = false := h c (List.mem_cons_self c rest)
      have hh : phoneHead isDig (c :: (rest ++ s)) = false :=
        phoneHead_not_one isDig c (rest ++ s) h1 hc
      rw [List.cons_append]
      have hstep : phoneScan isDig 0 b (c :: (rest ++ s))
          = phoneScan isDig 0 (isDig c) (rest ++ s) := by
        simp only [phoneScan, hh, Bool.and_false, Bool.false_eq_true,
          if_false]
      rw [hstep, hc,
        ih (fun c' hc' => h c' (List.mem_cons_of_mem c hc')) false s]
      simp

lemma phoneScan_true_digits (isDig : Char → Bool) :
    ∀ (s : Str), (∀ c ∈ s, isDig c = true) →
    ∀ (rest : Str),
    phoneScan isDig 0 true (s ++ rest) = phoneScan isDig 0 true rest := by
  intro s
  induction s with
  | nil =>
      intro _ rest
      rfl
  | cons c s' ih =>
      intro h rest
      rw [List.cons_append]
      show phoneScan isDig 0 (isDig c) (s' ++ rest)
        = phoneScan isDig 0 true rest
      rw [h c (List.mem_cons_self c s')]
      exact ih (fun c' hc' => h c' (List.mem_cons_of_mem c hc')) rest

lemma phoneScan_digitFree (isDig : Char → Bool) (h1 : isDig '1' = true)
    (s : Str) (h : ∀ c ∈ s, isDig c = false) (b : Bool) :
    phoneScan isDig 0 b s = [] := by
  have h0 := phoneScan_digitFree_prefix isDig h1 s h b []
  rw [List.append_nil] at h0
  rw [h0]
  rfl

/-- No match inside a maximal digit run longer than 11 digits: the
lookbehind blocks every start position after the first, and the lookahead
blocks the first. -/
lemma phoneFindall_embedded (isDig : Char → Bool) (h1 : isDig '1' = true)
    (pre run post : Str)
    (hpre : ∀ c ∈ pre, isDig c = false)
    (hpost : ∀ c ∈ post, isDig c = false)
    (hrun : ∀ c ∈ run, isDig c = true)
    (hlen : 12 ≤ run.length) :
    phoneFindall isDig (pre ++ run ++ post) = [] := by
  unfold phoneFindall
  rw [List.append_assoc, phoneScan_digitFree_prefix isDig h1 pre hpre false
    (run ++ post), Bool.false_and]
  cases run with
  | nil => simp at hlen
  | cons r rtail =>
      have hlen' : 11 ≤ rtail.length := by
        simp only [List.length_cons] at hlen
        omega
      rw [List.cons_append]
      have hne : ((r :: (rtail ++ post)).length == 11) = false := by
        apply beq_eq_false_iff_ne.mpr
        simp only [List.length_cons, List.length_append]
        omega
      have h11 : 11 < (r :: rtail).length := by
        simp only [List.length_cons]
        omega
      have hd : isDig ((r :: (rtail ++ post)).getD 11 ' ') = true := by
        rw [show (r :: (rtail ++ post)) = (r :: rtail) ++ post from rfl,
          List.getD_append (r :: rtail) post ' ' 11 h11,
          List.getD_eq_getElem _ _ h11]
        exact hrun _ (List.getElem_mem _)
      have hF : (((r :: (rtail ++ post)).length == 11)
          || !isDig ((r :: (rtail ++ post)).getD 11 ' ')) = false := by
        rw [hne, hd]
        rfl
      have hh : phoneHead isDig (r :: (rtail ++ post)) = false := by
        unfold phoneHead
        rw [hF, Bool.and_false]
      have hstep : phoneScan isDig 0 false (r :: (rtail ++ post))
          = phoneScan isDig 0 (isDig r) (rtail ++ post) := by
        simp only [phoneScan, hh, Bool.and_false, Bool.false_eq_true,
          if_false]
      rw [hstep, hrun r (List.mem_cons_self r rtail),
        phoneScan_true_digits isDig rtail
          (fun c hc => hrun c (List.mem_cons_of_mem r hc)) post]
      exact phoneScan_digitFree isDig h1 post hpost true

/-- Exactly one match when a valid 11-digit phone number is bounded by
non-digits (or text ends) on both sides. -/
lemma phoneFindall_isolated (isDig : Char → Bool) (h1 : isDig '1' = true)
    (pre post ph : Str)
    (hpre : ∀ c ∈ pre, isDig c = false)
    (hpost : ∀ c ∈ post, isDig c = false)
    (hph : validPhone isDig ph = true) :
    phoneFindall isDig (pre ++ ph ++ post) = [ph] := by
  simp only [validPhone, Bool.and_eq_true, beq_iff_eq,
    decide_eq_true_eq, List.all_eq_true] at hph
  obtain ⟨⟨⟨⟨hlen, h0⟩, h3⟩, h9⟩, hdig⟩ := hph
  have hhead : phoneHead isDig (ph ++ post) = true := by
    simp only [phoneHead, Bool.and_eq_true, Bool.or_eq_true,
      decide_eq_true_eq, beq_iff_eq, List.all_eq_true]
    refine ⟨⟨⟨⟨⟨?_, ?_⟩, ?_⟩, ?_⟩, ?_⟩, ?_⟩
    · simp only [List.length_append]
      omega
    · rw [List.getD_append ph post ' ' 0 (by omega)]
      exact h0
    · rw [List.getD_append ph post ' ' 1 (by omega)]
      exact h3
    · rw [List.getD_append ph post ' ' 1 (by omega)]
      exact h9
    · intro i hi
      have hi9 : i < 9 := List.mem_range.mp hi
      rw [List.getD_append ph post ' ' (i + 2) (by omega)]
      exact hdig i hi
    · cases post with
      | nil =>
          left
          simp [hlen]
      | cons c p' =>
          right
          rw [List.getD_append_right ph (c :: p') ' ' 11 (by omega), hlen]
          show (!isDig ((c :: p').getD 0 ' ')) = true
          rw [List.getD_cons_zero, hpost c (List.mem_cons_self c p')]
          rfl
  unfold phoneFindall
  rw [List.append_assoc, phoneScan_digitFree_prefix isDig h1 pre hpre false
    (ph ++ post), Bool.false_and]
  cases hphc : ph with
  | nil =>
      rw [hphc] at hlen
      simp at hlen
  | cons p0 ptail =>
      have hpt : ptail.length = 10 := by
        rw [hphc] at hlen
        simp only [List.length_cons] at hlen
        omega
      rw [hphc] at hhead
      rw [List.cons_append] at hhead
      rw [List.cons_append]
      have hstep : phoneScan isDig 0 false (p0 :: (ptail ++ post))
          = (p0 :: (ptail ++ post)).take 11
              :: phoneScan isDig 10 true (ptail ++ post) := by
        simp only [phoneScan, hhead, Bool.not_false, Bool.true_and, if_true]
      rw [hstep]
      have htake : (p0 :: (ptail ++ post)).take 11 = p0 :: ptail := by
        rw [show (p0 :: (ptail ++ post)) = (p0 :: ptail) ++ post from rfl,
          show (11 : Nat) = (p0 :: ptail).length by simp [hpt],
          List.take_left]
      have hdrop : (ptail ++ post).drop 10 = post := by
        rw [show (10 : Nat) = ptail.length from hpt.symm, List.drop_left]
      rw [htake, show (10 : Nat) = 9 + 1 from rfl,
        phoneScan_skip isDig 9 (ptail ++ post) true, hdrop,
        phoneScan_digitFree isDig h1 post hpost true]

lemma filterMap_empty_vocab (toks : List Str) :
    toks.filterMap (fun w =>
      if w ∈ (∅ : Finset Str) then some (reasonSensitive w) else none)
      = [] := by
  induction toks with
  | nil => rfl
  | cons w ws ih => simp [List.filterMap_cons, ih]

lemma verdictOf_phoneOnly (isDig : Char → Bool)
    (findall : Str → Str → Except Str (List Str))
    (toks : List Str) (t : Str)
    (hf : findall phonePatternSrc t = Except.ok (phoneFindall isDig t))
    (h5 : ¬ t.length < 5) :
    verdictOf findall phoneOnlyState.sensitive_words
        phoneOnlyState.patterns toks t
      = (((phoneFindall isDig t).map
            (fun m => reasonPattern ("手机号".data) m)).length == 0,
         (phoneFindall isDig t).map
            (fun m => reasonPattern ("手机号".data) m)) := by
  have hp : patternReasons findall phoneOnlyState.patterns t
      = Except.ok ((phoneFindall isDig t).map
          (fun m => reasonPattern ("手机号".data) m)) := by
    show patternReasons findall [("手机号".data, phonePatternSrc)] t = _
    simp only [patternReasons, hf]
    simp
  have hw : toks.filterMap (fun w =>
      if w ∈ phoneOnlyState.sensitive_words then some (reasonSensitive w)
      else none) = [] := filterMap_empty_vocab toks
  unfold verdictOf
  rw [hp, hw, if_neg h5]
  simp only [List.nil_append, List.append_nil]

/-- **C6.** Boundary-aware phone matching, through `check_content` over a
registry holding the phone rule, for every digit test `isDig` modelling
`\d` (Python matches any Unicode decimal digit, so `\d`'s character set
is the external `re` module's; the theorem assumes of it only
`isDig '1' = true`): an 11-digit-containing digit run of length ≥ 12
(embedded between non-digit context) yields no phone reason at all, while
a valid 11-digit phone number not adjacent to any digit yields exactly the
reason naming the rule (`手机号`) and the exact matched digits. -/
theorem phone_rule_boundary_aware (isDig : Char → Bool)
    (seg : Str → Except Str (List Str))
    (findall : Str → Str → Except Str (List Str))
    (toks1 toks2 : List Str) (pre run post ph : Str)
    (hd1 : isDig '1' = true)
    (hf : ∀ u, findall phonePatternSrc u
        = Except.ok (phoneFindall isDig u))
    (hpre : ∀ c ∈ pre, isDig c = false)
    (hpost : ∀ c ∈ post, isDig c = false)
    (hrun : ∀ c ∈ run, isDig c = true)
    (hlen : 12 ≤ run.length)
    (hph : validPhone isDig ph = true)
    (hseg1 : seg (pre ++ run ++ post) = Except.ok toks1)
    (hseg2 : seg (pre ++ ph ++ post) = Except.ok toks2) :
    (check_content seg findall phoneOnlyState
        (some (pre ++ run ++ post))).1.2 = []
    ∧ (check_content seg findall phoneOnlyState
        (some (pre ++ ph ++ post))).1.2
      = [reasonPattern ("手机号".data) ph] := by
  have hphlen : ph.length = 11 := by
    simp only [validPhone, Bool.and_eq_true, beq_iff_eq] at hph
    exact hph.1.1.1.1
  constructor
  · have ht : (pre ++ run ++ post) ≠ [] := by
      intro h
      have := congrArg List.length h
      simp only [List.length_append, List.length_nil] at this
      omega
    rw [check_content_miss_ok seg findall phoneOnlyState _ toks1 ht rfl
      hseg1]
    have h5 : ¬ (pre ++ run ++ post).length < 5 := by
      simp only [List.length_append]
      omega
    show (verdictOf findall phoneOnlyState.sensitive_words
        phoneOnlyState.patterns toks1 (pre ++ run ++ post)).2 = []
    rw [verdictOf_phoneOnly isDig findall toks1 _ (hf _) h5,
      phoneFindall_embedded isDig hd1 pre run post hpre hpost hrun hlen]
    rfl
  · have ht : (pre ++ ph ++ post) ≠ [] := by
      intro h
      have := congrArg List.length h
      simp only [List.length_append, List.length_nil] at this
      omega
    rw [check_content_miss_ok seg findall phoneOnlyState _ toks2 ht rfl
      hseg2]
    have h5 : ¬ (pre ++ ph ++ post).length < 5 := by
      simp only [List.length_append]
      omega
    show (verdictOf findall phoneOnlyState.sensitive_words
        phoneOnlyState.patterns toks2 (pre ++ ph ++ post)).2
      = [reasonPattern ("手机号".data) ph]
    rw [verdictOf_phoneOnly isDig findall toks2 _ (hf _) h5,
      phoneFindall_isolated isDig hd1 pre post ph hpre hpost hph]
    rfl

/-- Witness for `phone_rule_boundary_aware` at the concrete digit test
`isDigitModel`: the digit run `186123456789` (12 digits) embedded in
`电话…末` yields no reason, while the phone number `18612345678` in the
same context yields exactly the phone reason. -/
theorem phone_rule_boundary_aware_witness :
    (check_content seg0 findallModel phoneOnlyState
        (some ("电话".data ++ "186123456789".data ++ "末".data))).1.2 = []
    ∧ (check_content seg0 findallModel phoneOnlyState
        (some ("电话".data ++ "18612345678".data ++ "末".data))).1.2
      = [reasonPattern ("手机号".data) ("18612345678".data)] :=
  phone_rule_boundary_aware isDigitModel seg0 findallModel
    ["电话".data ++ "186123456789".data ++ "末".data]
    ["电话".data ++ "18612345678".data ++ "末".data]
    ("电话".data) ("186123456789".data) ("末".data) ("18612345678".data)
    (by decide) (fun u => by simp [findallModel])
    (by decide) (by decide) (by decide) (by decide) (by decide) rfl rfl

end ReviewNLP
